import Mathlib

/-!
Verification of `heic_converter.py` (repository `hprombex/heic_converter`).

The file shallowly embeds the logic of the single source module:
* `HeicConverter.remove_exif_orientation` — EXIF metadata sanitizing,
* the output-path derivation inside `HeicConverter.convert_heic`,
* `HeicConverter.find_heic_files` — recursive directory discovery,
* the effect sequence of `HeicConverter.convert_heic`,
* `HeicConverter.main` — CLI validation, single-file branch and the batch loop.

External collaborators (PIL, `pillow_heif`, `pathlib`, `os`) are modelled from
their documented behaviour at the exact granularity the converter uses them.
-/

namespace HeicConverter

/-! ## EXIF tag table and metadata

`PIL.ExifTags.TAGS` maps numeric EXIF tag identifiers to canonical names.
The converter only ever asks whether `TAGS.get(tag) == "Orientation"`; we embed
the fragment of the table around the orientation tag (id 274 = 0x0112).
Modelled from the PIL collaborator: `TAGS` is a dict with unique integer keys,
and `"Orientation"` is the name of tag 274 only. -/
def TAGS_get (tag : Nat) : Option String :=
  if tag = 271 then some "Make"
  else if tag = 272 then some "Model"
  else if tag = 274 then some "Orientation"
  else if tag = 282 then some "XResolution"
  else if tag = 283 then some "YResolution"
  else if tag = 306 then some "DateTime"
  else none

/-- The test performed at line 76 of the source: `TAGS.get(tag) == "Orientation"`. -/
def isOrientationTag (tag : Nat) : Bool :=
  TAGS_get tag == some "Orientation"

/-- A metadata mapping (PIL `Exif` object): tag → value pairs in iteration
order.  A Python dict never holds a key twice, which the theorems record as a
`Nodup` hypothesis on the keys. -/
abbrev Metadata := List (Nat × Nat)

/-- Keys of a metadata mapping, in iteration order. -/
def Metadata.keys (m : Metadata) : List Nat := m.map Prod.fst

/-- Source function `remove_exif_orientation` (lines 64–81): scan the
tags in iteration order; on the first tag whose canonical name is
`"Orientation"`, pop it from the mapping and return at once; otherwise return
the mapping unchanged. -/
def remove_exif_orientation : Metadata → Metadata
  | [] => []
  | (t, v) :: rest =>
    if isOrientationTag t then rest
    else (t, v) :: remove_exif_orientation rest

/-! ## Path derivation

Python string/path primitives, embedded at character-list level so that the
kernel can evaluate them.  `str.replace('.', '_')` on a one-character pattern
is a character-wise map; `str.lower()` on ASCII names is `Char.toLower`
character-wise; `pathlib.Path(p).name` / `.parent` split on `'/'`;
`os.path.join(root, file)` and `Path(dir) / name` insert a single `'/'`. -/

/-- Split a character list on `'/'`; always returns at least one group. -/
def splitOnSlash : List Char → List (List Char)
  | [] => [[]]
  | c :: rest =>
    let r := splitOnSlash rest
    if c = '/' then [] :: r
    else
      match r with
      | [] => [[c]]
      | g :: gs => (c :: g) :: gs

/-- Re-join groups with `'/'`; left inverse of `splitOnSlash`. -/
def joinSlash : List (List Char) → List Char
  | [] => []
  | [g] => g
  | g :: gs => g ++ '/' :: joinSlash gs

/-- Embeds `pathlib.Path(p).name`: the final path component. -/
def pathName (p : String) : String :=
  String.mk ((splitOnSlash p.data).getLastD [])

/-- Embeds `pathlib.Path(p).parent` rendered as a string, for paths that contain a
directory component. -/
def pathParent (p : String) : String :=
  String.mk (joinSlash (splitOnSlash p.data).dropLast)

/-- Embeds `os.path.join(root, file)` / `Path(dir) / name`: join with `'/'`. -/
def pathJoin (dir name : String) : String :=
  dir ++ "/" ++ name

/-- Python `str.lower()` (ASCII). -/
def pyLower (s : String) : String :=
  String.mk (s.data.map Char.toLower)

/-- Python `original_name.replace('.', '_')`: every `'.'` becomes `'_'`. -/
def replaceDots (s : String) : String :=
  String.mk (s.data.map fun c => if c = '.' then '_' else c)

/-- The output filename built at line 116 of the source:
`f"{original_name.replace('.', '_')}.{image_format.lower()}"`. -/
def outputFilename (original_name image_format : String) : String :=
  replaceDots original_name ++ "." ++ pyLower image_format

/-- The output-path derivation of `convert_heic` (source lines 115–121):
when `output_file` is `None` the parent directory of the input is used,
otherwise `output_file` is used as a directory. -/
def resolve_output_path (input_file : String) (output_file : Option String)
    (image_format : String) : String :=
  let original_name := pathName input_file
  let filename := outputFilename original_name image_format
  match output_file with
  | none => pathJoin (pathParent input_file) filename
  | some out => pathJoin out filename

/-- The same derivation written from the specification's words: take the
directory (`output_location` when present, else the input's parent), and join
it with the original filename in which every `'.'` is replaced by `'_'`,
followed by `'.'` and the lowercased target format. -/
def resolveOutputPathSpec (input_path : String) (output_location : Option String)
    (target_format : String) : String :=
  let dir := output_location.getD (pathParent input_path)
  let fname :=
    String.mk ((pathName input_path).data.map fun c => if c = '.' then '_' else c)
      ++ "." ++ pyLower target_format
  dir ++ "/" ++ fname

/-! ## File discovery

A directory tree: its entries are plain file names and named subdirectories.
`os.walk(directory)` yields, top-down, one `(root, dirs, files)` triple per
directory, the argument directory first; the converter only consumes `root`
and `files`. -/

/-- A directory in a filesystem tree: its plain files and its subdirectories. -/
inductive FSTree : Type where
  | node (name : String) (files : List String) (subdirs : List FSTree)

/-- Name of the directory. -/
def FSTree.name : FSTree → String
  | .node n _ _ => n

/-- Modelled from the spec and the `os.walk` documentation: top-down walk: the directory
itself first, then each subdirectory in order, recursively; each entry pairs
the joined root path with the file names in that directory. -/
def osWalk (path : String) : FSTree → List (String × List String)
  | .node _ files subdirs =>
    (path, files) ::
      (subdirs.attach.map fun ⟨t, _⟩ => osWalk (pathJoin path t.name) t).flatten

/-- The selection predicate of line 148: `file.lower().endswith(".heic")`. -/
def isHeicName (file : String) : Bool :=
  ".heic".data.isSuffixOf (pyLower file).data

/-- Source function `find_heic_files` (lines 138–153): walk the
directory, and for every yielded `(root, _, files)` append
`os.path.join(root, file)` for each file whose lowercase name ends in
`".heic"`. -/
def find_heic_files (directory : String) (tree : FSTree) : List String :=
  (osWalk directory tree).flatMap fun rf =>
    (rf.2.filter isHeicName).map (pathJoin rf.1)

/-- Specification-side collector: every file under the root, recursively at
unbounded depth, paired as (joined path, file name). -/
def allFilesUnder (path : String) : FSTree → List (String × String)
  | .node _ files subdirs =>
    files.map (fun f => (pathJoin path f, f)) ++
      (subdirs.attach.map fun ⟨t, _⟩ => allFilesUnder (pathJoin path t.name) t).flatten

/-! ## The effect sequence of `convert_heic`

`convert_heic` (source lines 83–136) performs, in order: lowercase the
format; warn when the lowercased format is not `jpeg`/`png`; open (decode) the
input; sanitize metadata; derive the output path; save (encode); log the
conversion; and, when `delete` is set, log and unlink the input with
`missing_ok=True`.  Decode and encode are external calls that may raise; the
embedding takes their outcomes as booleans and records the observable steps. -/

/-- Observable steps of one `convert_heic` call. -/
inductive ConvEvent : Type where
  | warnUntested
  | openInput
  | saveOutput
  | logConverted
  | logDeleting
  | deleteInput
  deriving DecidableEq

/-- Errors a `convert_heic` call can propagate. -/
inductive ConvError : Type where
  | decodeError
  | encodeError
  | deleteError
  deriving DecidableEq

/-- Modelled from the `pathlib.Path.unlink(missing_ok)` documented
behaviour: with `missing_ok=True` a missing file is ignored; with
`missing_ok=False` a missing file raises `FileNotFoundError`. -/
def pathUnlink (missing_ok : Bool) (fileExists : Bool) : Except ConvError Unit :=
  if fileExists then .ok ()
  else if missing_ok then .ok ()
  else .error .deleteError

/-- The effect trace of `convert_heic`: the emitted steps in order, and the
propagated error, if any.  `decodeOk`/`saveOk` are the outcomes of the
external decode (`Image.open`) and encode (`image.save`) calls;
`inputExistsAtDelete` is whether the input file still exists when the
deletion step runs. -/
def convert_heic_trace (image_format : String) (delete : Bool)
    (decodeOk saveOk inputExistsAtDelete : Bool) :
    List ConvEvent × Option ConvError :=
  let fmt := pyLower image_format
  let warn : List ConvEvent :=
    if fmt = "jpeg" ∨ fmt = "png" then [] else [.warnUntested]
  if ¬ decodeOk then
    (warn ++ [.openInput], some .decodeError)
  else if ¬ saveOk then
    (warn ++ [.openInput, .saveOutput], some .encodeError)
  else if delete then
    match pathUnlink true inputExistsAtDelete with
    | .ok _ =>
        (warn ++ [.openInput, .saveOutput, .logConverted, .logDeleting, .deleteInput],
         none)
    | .error e =>
        (warn ++ [.openInput, .saveOutput, .logConverted, .logDeleting], some e)
  else
    (warn ++ [.openInput, .saveOutput, .logConverted], none)

/-! ## The `main` driver

`HeicConverter.main` (source lines 224–262): if `args.input_file` is truthy,
validate it with `os.path.isfile` (raising `FileNotFoundError` otherwise) and
convert it; then, if `args.input_dir` is truthy, validate it with
`os.path.isdir` (raising `NotADirectoryError` otherwise), discover the `.heic`
files and convert them one by one in a plain `for` loop.  No exception is
caught anywhere, so the first raised error terminates the run. -/

/-- The CLI arguments relevant to control flow. -/
structure Args : Type where
  input_file : Option String
  input_dir : Option String

/-- Python truthiness of an optional string (`if args.input_file:`):
`None` and the empty string are falsy. -/
def truthy : Option String → Bool
  | none => false
  | some s => s ≠ ""

/-- The environment `main` runs against: filesystem predicates, the tree
under a directory, and which input files make `convert_heic` raise
(decode or encode failure). -/
structure Env : Type where
  isFile : String → Bool
  isDir : String → Bool
  dirTree : String → FSTree
  convertFails : String → Bool

/-- Errors `main` can terminate with. -/
inductive MainError : Type where
  | fileNotFoundError (path : String)
  | notADirectoryError (path : String)
  | conversionError (input : String)
  deriving DecidableEq

/-- Result of a `main` run: the input paths on which `convert_heic` was
attempted in the single-file branch and in the batch loop, and the error the
run terminated with, if any. -/
structure MainResult : Type where
  singleAttempts : List String
  batchAttempts : List String
  err : Option MainError
  deriving DecidableEq

/-- The batch `for` loop (source lines 252–262): convert each discovered file
in order; a raising conversion terminates the loop at once, the exception
propagating out of `main`.  Returns the attempted inputs and the error. -/
def runBatch (fails : String → Bool) : List String → List String × Option MainError
  | [] => ([], none)
  | f :: rest =>
    if fails f then ([f], some (.conversionError f))
    else
      let r := runBatch fails rest
      (f :: r.1, r.2)

/-- The `input_dir` branch of `main` (source lines 245–262), entered with the
single-file attempts already made. -/
def mainDirPhase (env : Env) (args : Args) (single : List String) : MainResult :=
  if truthy args.input_dir then
    let d := args.input_dir.getD ""
    if ¬ env.isDir d then ⟨single, [], some (.notADirectoryError d)⟩
    else
      let r := runBatch env.convertFails (find_heic_files d (env.dirTree d))
      ⟨single, r.1, r.2⟩
  else ⟨single, [], none⟩

/-- Source function `main` (lines 224–262). -/
def mainRun (env : Env) (args : Args) : MainResult :=
  if truthy args.input_file then
    let p := args.input_file.getD ""
    if ¬ env.isFile p then ⟨[], [], some (.fileNotFoundError p)⟩
    else if env.convertFails p then ⟨[p], [], some (.conversionError p)⟩
    else mainDirPhase env args [p]
  else mainDirPhase env args []

/-! ## Concrete scenarios used by the counterexamples -/

/-- A run with only `--input_dir photos`; the directory holds three `.heic`
files and converting the second one fails (a corrupted file). -/
def envBatchFail : Env where
  isFile := fun _ => false
  isDir := fun d => d == "photos"
  dirTree := fun _ => .node "photos" ["a.heic", "b.heic", "c.heic"] []
  convertFails := fun p => p == "photos/b.heic"

/-- Arguments of the batch-only run against `envBatchFail`. -/
def argsBatchFail : Args := ⟨none, some "photos"⟩

/-- A run with both flags: `--input_file photo.heic` exists and converts
fine, `--input_dir nodir` is not a directory. -/
def envBothFlags : Env where
  isFile := fun p => p == "photo.heic"
  isDir := fun _ => false
  dirTree := fun _ => .node "" [] []
  convertFails := fun _ => false

/-- Arguments of the both-flags run against `envBothFlags`. -/
def argsBothFlags : Args := ⟨some "photo.heic", some "nodir"⟩

/-! ## Helper lemmas -/

theorem flatMap_flatten {α β : Type} (l : List (List α)) (g : α → List β) :
    l.flatten.flatMap g = (l.map (fun x => x.flatMap g)).flatten := by
  induction l with
  | nil => rfl
  | cons x xs ih => simp [ih]

theorem filter_map_flatten {α β : Type} (l : List (List α)) (p : α → Bool) (f : α → β) :
    (l.flatten.filter p).map f = (l.map (fun x => (x.filter p).map f)).flatten := by
  induction l with
  | nil => rfl
  | cons x xs ih => simp [ih, Function.comp_def]

/-- Only tag 274 resolves to the orientation tag. -/
theorem eq_274_of_isOrientationTag {t : Nat} (h : isOrientationTag t = true) : t = 274 := by
  unfold isOrientationTag TAGS_get at h
  split_ifs at h <;> simp_all

/-- Structure of a removal: the mapping splits around the first orientation
entry, everything before it was scanned and is not an orientation tag, and
the function returns the mapping with exactly that entry popped. -/
theorem remove_split (M : Metadata) (hor : ∃ e ∈ M, isOrientationTag e.1 = true) :
    ∃ l₁ e l₂, M = l₁ ++ e :: l₂ ∧ isOrientationTag e.1 = true ∧
      (∀ f ∈ l₁, isOrientationTag f.1 = false) ∧
      remove_exif_orientation M = l₁ ++ l₂ := by
  induction M with
  | nil => simp at hor
  | cons e rest ih =>
    obtain ⟨t, v⟩ := e
    by_cases ht : isOrientationTag t = true
    · exact ⟨[], (t, v), rest, by simp, ht, by simp, by simp [remove_exif_orientation, ht]⟩
    · have ht' : isOrientationTag t = false := by simpa using ht
      obtain ⟨f, hf, hfo⟩ := hor
      have hfr : ∃ g ∈ rest, isOrientationTag g.1 = true := by
        rcases List.mem_cons.mp hf with h1 | h1
        · subst h1
          exact absurd hfo ht
        · exact ⟨f, h1, hfo⟩
      obtain ⟨l₁, e, l₂, hM, he, hl₁, hrem⟩ := ih hfr
      refine ⟨(t, v) :: l₁, e, l₂, by simp [hM], he, ?_, ?_⟩
      · intro g hg
        rcases List.mem_cons.mp hg with h1 | h1
        · subst h1
          exact ht'
        · exact hl₁ g h1
      · simp [remove_exif_orientation, ht', hrem]

theorem splitOnSlash_ne_nil : ∀ l : List Char, splitOnSlash l ≠ []
  | [] => by simp [splitOnSlash]
  | c :: rest => by
    simp only [splitOnSlash]
    split
    · simp
    · split <;> simp

theorem joinSlash_cons_cons (c : Char) (g : List Char) (gs : List (List Char)) :
    joinSlash ((c :: g) :: gs) = c :: joinSlash (g :: gs) := by
  cases gs <;> simp [joinSlash]

theorem joinSlash_two (g g' : List Char) (gs : List (List Char)) :
    joinSlash (g :: g' :: gs) = g ++ '/' :: joinSlash (g' :: gs) := rfl

/-- Splitting on `'/'` and re-joining is the identity. -/
theorem joinSlash_splitOnSlash : ∀ l : List Char, joinSlash (splitOnSlash l) = l
  | [] => rfl
  | c :: rest => by
    have ih := joinSlash_splitOnSlash rest
    obtain ⟨g, gs, hgs⟩ : ∃ g gs, splitOnSlash rest = g :: gs := by
      cases h : splitOnSlash rest with
      | nil => exact absurd h (splitOnSlash_ne_nil rest)
      | cons g gs => exact ⟨g, gs, rfl⟩
    simp only [splitOnSlash]
    by_cases hc : c = '/'
    · subst hc
      rw [if_pos rfl, hgs]
      rw [hgs] at ih
      show '/' :: joinSlash (g :: gs) = '/' :: rest
      rw [ih]
    · rw [if_neg hc, hgs]
      rw [hgs] at ih
      rw [joinSlash_cons_cons, ih]

theorem joinSlash_concat (xs : List (List Char)) (x : List Char) :
    (joinSlash (xs ++ [x])).length ≤ (joinSlash xs).length + 1 + x.length := by
  induction xs with
  | nil => simp [joinSlash]
  | cons g gs ih =>
    cases gs with
    | nil => simp [joinSlash]; omega
    | cons g' gs' =>
      simp only [List.cons_append] at ih ⊢
      simp only [joinSlash_two]
      simp only [List.length_append, List.length_cons]
      omega

/-- A path is at most as long as its parent, a separator, and its name. -/
theorem length_le_parent_add_name (p : String) :
    p.length ≤ (pathParent p).length + 1 + (pathName p).length := by
  obtain h | ⟨xs, x, hx⟩ := List.eq_nil_or_concat' (splitOnSlash p.data)
  · exact absurd h (splitOnSlash_ne_nil p.data)
  · have hd : p.data = joinSlash (xs ++ [x]) := by
      conv_lhs => rw [← joinSlash_splitOnSlash p.data]
      rw [hx]
    have hp := congrArg List.length hd
    rw [pathParent, pathName, hx, List.dropLast_concat, List.getLastD_concat]
    show p.data.length ≤ (joinSlash xs).length + 1 + x.length
    have := joinSlash_concat xs x
    omega

theorem output_filename_length (name fmt : String) :
    (outputFilename name fmt).length = name.length + 1 + (pyLower fmt).length := by
  rw [outputFilename, String.length_append, String.length_append]
  have h1 : (replaceDots name).length = name.length := by
    show (name.data.map _).length = name.data.length
    rw [List.length_map]
  rw [h1]
  rfl

/-! ## Claims -/

/-- Claim C3: for every metadata mapping containing an orientation tag,
`remove_exif_orientation` returns a mapping with no orientation tag, every
other tag still present with its original value, exactly one entry removed,
and the scan stops at the first orientation entry (everything before it is
non-orientation, everything after it is untouched). -/
theorem remove_exif_orientation_removes_orientation (M : Metadata)
    (hnd : M.keys.Nodup) (hor : ∃ e ∈ M, isOrientationTag e.1 = true) :
    (∀ f ∈ remove_exif_orientation M, isOrientationTag f.1 = false) ∧
    (∀ t v, isOrientationTag t = false →
      ((t, v) ∈ remove_exif_orientation M ↔ (t, v) ∈ M)) ∧
    (remove_exif_orientation M).length + 1 = M.length ∧
    (∃ l₁ e l₂, M = l₁ ++ e :: l₂ ∧ isOrientationTag e.1 = true ∧
      (∀ f ∈ l₁, isOrientationTag f.1 = false) ∧
      remove_exif_orientation M = l₁ ++ l₂) := by
  obtain ⟨l₁, e, l₂, hM, he, hl₁, hrem⟩ := remove_split M hor
  have hkeys : (l₁.map Prod.fst ++ e.1 :: l₂.map Prod.fst).Nodup := by
    have h := hnd
    rw [Metadata.keys, hM] at h
    simpa using h
  have hnotl₂ : ∀ f ∈ l₂, isOrientationTag f.1 = false := by
    intro f hf
    by_contra hcon
    have hfo : isOrientationTag f.1 = true := by simpa using hcon
    have h1 : f.1 = 274 := eq_274_of_isOrientationTag hfo
    have h2 : e.1 = 274 := eq_274_of_isOrientationTag he
    have : e.1 ∉ l₂.map Prod.fst := by
      have := List.Nodup.sublist (List.sublist_append_right _ _) hkeys
      exact (List.nodup_cons.mp this).1
    exact this (by rw [h2, ← h1]; exact List.mem_map_of_mem Prod.fst hf)
  refine ⟨?_, ?_, ?_, l₁, e, l₂, hM, he, hl₁, hrem⟩
  · intro f hf
    rw [hrem] at hf
    rcases List.mem_append.mp hf with h1 | h1
    · exact hl₁ f h1
    · exact hnotl₂ f h1
  · intro t v hto
    rw [hrem, hM]
    simp only [List.mem_append, List.mem_cons]
    constructor
    · tauto
    · rintro (h1 | h1 | h1)
      · tauto
      · exfalso
        exact absurd he (by simp [← h1, hto])
      · tauto
  · rw [hrem, hM]
    simp
    omega

/-- Witness for C3 at the mapping `[(271, 5), (274, 6), (306, 7)]`, whose
entry 274 is the orientation tag. -/
theorem remove_exif_orientation_removes_orientation_witness :
    (remove_exif_orientation [(271, 5), (274, 6), (306, 7)]).length + 1 =
      ([(271, 5), (274, 6), (306, 7)] : Metadata).length :=
  (remove_exif_orientation_removes_orientation
    [(271, 5), (274, 6), (306, 7)] (by decide) (by decide)).2.2.1

/-- Claim C5: for every metadata mapping without an orientation tag
(including the empty mapping), `remove_exif_orientation` is the identity. -/
theorem remove_exif_orientation_identity (M : Metadata)
    (h : ∀ e ∈ M, isOrientationTag e.1 = false) :
    remove_exif_orientation M = M := by
  induction M with
  | nil => rfl
  | cons e rest ih =>
    obtain ⟨t, v⟩ := e
    have ht := h (t, v) (List.mem_cons_self _ _)
    simp only at ht
    simp [remove_exif_orientation, ht, ih fun f hf => h f (List.mem_cons_of_mem _ hf)]

/-- Witness for C5 at a mapping with no orientation tag. -/
theorem remove_exif_orientation_identity_witness :
    remove_exif_orientation [(271, 5), (306, 7)] = [(271, 5), (306, 7)] :=
  remove_exif_orientation_identity [(271, 5), (306, 7)] (by decide)

/-- Claim C4: the resolved output path is the chosen directory (the input's
parent when `output_file` is absent, otherwise `output_file` as a directory)
joined with the input's filename in which every `'.'` becomes `'_'`, plus
`'.'` and the lowercased format; in particular on the two documented
examples. -/
theorem resolve_output_path_correct :
    (∀ (input : String) (out : Option String) (fmt : String),
      resolve_output_path input out fmt = resolveOutputPathSpec input out fmt) ∧
    resolve_output_path "/a/b/photo.HEIC" none "jpeg" = "/a/b/photo_HEIC.jpeg" ∧
    resolve_output_path "/a/b/photo.heic" (some "/out") "png" = "/out/photo_heic.png" :=
  ⟨fun input out fmt => by cases out <;> rfl, by decide, by decide⟩

/-- Claim C10: the derived output filename is never the input's filename (it
is strictly longer, since the dots of the original name are replaced before
a new extension is appended), so resolving into the input's own directory
never yields the input path itself. -/
theorem output_filename_never_equals_input :
    (∀ name fmt, outputFilename name fmt ≠ name) ∧
    (∀ input fmt, resolve_output_path input none fmt ≠ input) := by
  constructor
  · intro name fmt h
    have := congrArg String.length h
    rw [output_filename_length] at this
    omega
  · intro input fmt h
    have hle := length_le_parent_add_name input
    have hlen := congrArg String.length h
    simp only [resolve_output_path] at hlen
    rw [pathJoin, String.length_append, String.length_append,
      output_filename_length] at hlen
    have hdot : ("/" : String).length = 1 := rfl
    omega

/-- Witness for C10 at `photo.heic` / `jpeg`. -/
theorem output_filename_never_equals_input_witness :
    outputFilename "photo.heic" "jpeg" ≠ "photo.heic" :=
  output_filename_never_equals_input.1 "photo.heic" "jpeg"

/-- Claim C6: `find_heic_files` returns exactly the joined paths of the
files under the root (recursively, at unbounded depth) whose lowercase name
ends with `.heic`, and no others; being a pure function of the tree, a second
run over the unchanged tree returns the same list. -/
theorem find_heic_files_correct (d : String) (t : FSTree) :
    find_heic_files d t =
      ((allFilesUnder d t).filter fun pr => isHeicName pr.2).map Prod.fst ∧
    (∀ p, p ∈ find_heic_files d t ↔
      ∃ pr ∈ allFilesUnder d t, isHeicName pr.2 = true ∧ p = pr.1) ∧
    find_heic_files d t = find_heic_files d t := by
  have key : ∀ (d : String) (t : FSTree),
      find_heic_files d t =
        ((allFilesUnder d t).filter fun pr => isHeicName pr.2).map Prod.fst := by
    intro d t
    induction d, t using allFilesUnder.induct with
    | _ path name files subdirs ih =>
      rw [find_heic_files, osWalk, allFilesUnder]
      rw [List.flatMap_cons, flatMap_flatten, List.map_map]
      rw [List.filter_append, List.map_append]
      congr 1
      · rw [List.filter_map, List.map_map]
        rfl
      · rw [filter_map_flatten, List.map_map]
        apply congrArg List.flatten
        apply List.map_congr_left
        intro a _
        obtain ⟨t, ht⟩ := a
        simp only [Function.comp_apply]
        rw [← find_heic_files]
        exact ih t ht
  refine ⟨key d t, ?_, rfl⟩
  intro p
  rw [key d t]
  simp only [List.mem_map, List.mem_filter]
  constructor
  · rintro ⟨pr, ⟨hmem, hq⟩, rfl⟩
    exact ⟨pr, hmem, hq, rfl⟩
  · rintro ⟨pr, hmem, hq, rfl⟩
    exact ⟨pr, ⟨hmem, hq⟩, rfl⟩

/-- Claim C7: `convert_heic` reaches the deletion step exactly when
`delete` is set and both the decode and the encode succeeded, and in every
trace that deletes the input, the save step appears strictly before the
deletion. -/
theorem convert_heic_delete_gated :
    ∀ (fmt : String) (delete d s ex : Bool),
      (ConvEvent.deleteInput ∈ (convert_heic_trace fmt delete d s ex).1 ↔
        delete = true ∧ d = true ∧ s = true) ∧
      (ConvEvent.deleteInput ∈ (convert_heic_trace fmt delete d s ex).1 →
        ConvEvent.saveOutput ∈ (convert_heic_trace fmt delete d s ex).1 ∧
        (convert_heic_trace fmt delete d s ex).1.indexOf ConvEvent.saveOutput <
          (convert_heic_trace fmt delete d s ex).1.indexOf ConvEvent.deleteInput) := by
  intro fmt delete d s ex
  by_cases hw : pyLower fmt = "jpeg" ∨ pyLower fmt = "png" <;>
    cases d <;> cases s <;> cases delete <;> cases ex <;>
      simp [convert_heic_trace, pathUnlink, hw]

/-- Witness for C7 at a successful deleting jpeg conversion. -/
theorem convert_heic_delete_gated_witness :
    ConvEvent.saveOutput ∈ (convert_heic_trace "jpeg" true true true true).1 ∧
    (convert_heic_trace "jpeg" true true true true).1.indexOf ConvEvent.saveOutput <
      (convert_heic_trace "jpeg" true true true true).1.indexOf ConvEvent.deleteInput :=
  (convert_heic_delete_gated "jpeg" true true true true).2 (by decide)

/-- Claim C8: with `delete` set and a successful conversion, the deletion
step never raises even when the input file is already gone
(`Path.unlink(missing_ok=True)` tolerates a missing file), so the call
finishes without error and still records the deletion. -/
theorem delete_missing_input_does_not_raise :
    ∀ fmt : String,
      pathUnlink true false = Except.ok () ∧
      (convert_heic_trace fmt true true true false).2 = none ∧
      ConvEvent.deleteInput ∈ (convert_heic_trace fmt true true true false).1 := by
  intro fmt
  by_cases hw : pyLower fmt = "jpeg" ∨ pyLower fmt = "png" <;>
    simp [convert_heic_trace, pathUnlink, hw]

/-- Claim C9: `convert_heic` warns about an untested format exactly when the
lowercased format is neither `jpeg` nor `png`, and in every case still
proceeds to open (decode) the input; concretely, `bmp` warns while `jpeg`
and `png` do not. -/
theorem convert_heic_untested_format_warning :
    (∀ (fmt : String) (delete d s ex : Bool),
      (ConvEvent.warnUntested ∈ (convert_heic_trace fmt delete d s ex).1 ↔
        ¬ (pyLower fmt = "jpeg" ∨ pyLower fmt = "png")) ∧
      ConvEvent.openInput ∈ (convert_heic_trace fmt delete d s ex).1) ∧
    ConvEvent.warnUntested ∈ (convert_heic_trace "bmp" false true true true).1 ∧
    ConvEvent.warnUntested ∉ (convert_heic_trace "jpeg" false true true true).1 ∧
    ConvEvent.warnUntested ∉ (convert_heic_trace "PNG" false true true true).1 := by
  refine ⟨?_, by decide, by decide, by decide⟩
  intro fmt delete d s ex
  unfold convert_heic_trace pathUnlink
  cases d <;> cases s <;> cases delete <;> cases ex <;> split_ifs with h <;> simp_all

/-- Claim C1 (as stated, refuted): in the batch run over `envBatchFail`,
file `photos/c.heic` is discovered but never attempted, because the failure
on `photos/b.heic` propagates out of the loop and terminates the run. -/
theorem batch_failure_stops_remaining_counterexample :
    "photos/c.heic" ∈ find_heic_files "photos" (envBatchFail.dirTree "photos") ∧
    (mainRun envBatchFail argsBatchFail).batchAttempts =
      ["photos/a.heic", "photos/b.heic"] ∧
    "photos/c.heic" ∉ (mainRun envBatchFail argsBatchFail).batchAttempts ∧
    (mainRun envBatchFail argsBatchFail).err =
      some (.conversionError "photos/b.heic") := by
  simp only [mainRun, mainDirPhase, find_heic_files, osWalk, envBatchFail, argsBatchFail]
  decide

/-- Claim C1 (amended): the batch loop attempts the discovered files
sequentially in order; when none fails every file is attempted exactly once,
and otherwise each file up to and including the first failing one is
attempted exactly once, after which the failure propagates and the remaining
files are not attempted; in pure batch mode `main` is exactly this loop over
the discovered files. -/
theorem batch_attempts_until_first_failure :
    (∀ (fails : String → Bool) (files : List String),
      (∀ f ∈ files, fails f = false) → runBatch fails files = (files, none)) ∧
    (∀ (fails : String → Bool) (l₁ : List String) (f : String) (l₂ : List String),
      (∀ g ∈ l₁, fails g = false) → fails f = true →
      runBatch fails (l₁ ++ f :: l₂) = (l₁ ++ [f], some (.conversionError f))) ∧
    (∀ (env : Env) (args : Args),
      truthy args.input_file = false → truthy args.input_dir = true →
      env.isDir (args.input_dir.getD "") = true →
      mainRun env args =
        ⟨[],
         (runBatch env.convertFails (find_heic_files (args.input_dir.getD "")
            (env.dirTree (args.input_dir.getD "")))).1,
         (runBatch env.convertFails (find_heic_files (args.input_dir.getD "")
            (env.dirTree (args.input_dir.getD "")))).2⟩) := by
  refine ⟨?_, ?_, ?_⟩
  · intro fails files h
    induction files with
    | nil => rfl
    | cons f rest ih =>
      have hf := h f (List.mem_cons_self _ _)
      simp [runBatch, hf, ih fun g hg => h g (List.mem_cons_of_mem _ hg)]
  · intro fails l₁ f l₂ h hf
    induction l₁ with
    | nil => simp [runBatch, hf]
    | cons g gs ih =>
      have hg := h g (List.mem_cons_self _ _)
      simp [runBatch, hg, ih fun g' hg' => h g' (List.mem_cons_of_mem _ hg')]
  · intro env args h1 h2 h3
    simp [mainRun, mainDirPhase, h1, h2, h3]

/-- Witness for the amended C1: three files, the middle one failing. -/
theorem batch_attempts_until_first_failure_witness :
    runBatch (fun p => p == "d/b.heic") (["d/a.heic"] ++ "d/b.heic" :: ["d/c.heic"]) =
      (["d/a.heic"] ++ ["d/b.heic"], some (.conversionError "d/b.heic")) :=
  batch_attempts_until_first_failure.2.1 (fun p => p == "d/b.heic")
    ["d/a.heic"] "d/b.heic" ["d/c.heic"] (by decide) (by decide)

/-- Claim C2 (as stated, refuted): with a valid `--input_file` and an
invalid `--input_dir` supplied together, the single-file conversion is
attempted before the `NotADirectoryError` validation failure is raised, so
the run does not abort before every conversion attempt. -/
theorem validation_after_single_conversion_counterexample :
    truthy argsBothFlags.input_dir = true ∧
    envBothFlags.isDir "nodir" = false ∧
    (mainRun envBothFlags argsBothFlags).err = some (.notADirectoryError "nodir") ∧
    (mainRun envBothFlags argsBothFlags).singleAttempts = ["photo.heic"] := by
  decide

/-- Claim C2 (amended): an invalid supplied `--input_file` raises
`FileNotFoundError` before any conversion attempt; an invalid supplied
`--input_dir` always raises an error before any batch conversion attempt;
but when a valid, convertible `--input_file` is supplied together with an
invalid `--input_dir`, the single-file conversion runs before
`NotADirectoryError` is raised. -/
theorem main_input_validation (env : Env) (args : Args) :
    (truthy args.input_file = true → env.isFile (args.input_file.getD "") = false →
      mainRun env args = ⟨[], [], some (.fileNotFoundError (args.input_file.getD ""))⟩) ∧
    (truthy args.input_dir = true → env.isDir (args.input_dir.getD "") = false →
      (mainRun env args).batchAttempts = [] ∧ (mainRun env args).err ≠ none) ∧
    (truthy args.input_file = true → env.isFile (args.input_file.getD "") = true →
      env.convertFails (args.input_file.getD "") = false →
      truthy args.input_dir = true → env.isDir (args.input_dir.getD "") = false →
      mainRun env args =
        ⟨[args.input_file.getD ""], [],
         some (.notADirectoryError (args.input_dir.getD ""))⟩) := by
  refine ⟨?_, ?_, ?_⟩
  · intro h1 h2
    simp [mainRun, h1, h2]
  · intro h1 h2
    by_cases hf : truthy args.input_file = true
    · by_cases hisf : env.isFile (args.input_file.getD "") = true
      · by_cases hcf : env.convertFails (args.input_file.getD "") = true
        · simp [mainRun, mainDirPhase, hf, hisf, hcf, h1, h2]
        · simp [mainRun, mainDirPhase, hf, hisf, hcf, h1, h2]
      · simp [mainRun, mainDirPhase, hf, hisf, h1, h2]
    · simp [mainRun, mainDirPhase, hf, h1, h2]
  · intro h1 h2 h3 h4 h5
    simp [mainRun, mainDirPhase, h1, h2, h3, h4, h5]

/-- Witness for the amended C2 at the both-flags scenario. -/
theorem main_input_validation_witness :
    mainRun envBothFlags argsBothFlags =
      ⟨["photo.heic"], [], some (.notADirectoryError "nodir")⟩ :=
  (main_input_validation envBothFlags argsBothFlags).2.2
    (by decide) (by decide) (by decide) (by decide) (by decide)

end HeicConverter
